import Mathlib

/-!
Shallow embedding of the per-client MQTT session engine in
`internal/clients/clients.go`: the client registry, the client session
(keepalive deadline, packet-id allocation, fixed-header decode, packet
read/write paths, in-flight retransmission, shutdown protocol).

The byte-channel (`internal/circ`) and the packet codec
(`internal/packets`) are external collaborators of the core; where their
behaviour is needed it is modelled from the specification and marked as
such in the doc comment.
-/

namespace Mqtt

/-- Error kinds surfaced at the boundary of the session core. -/
inductive Err where
  /-- The error `ErrConnectionClosed` ("Connection not open"): write after shutdown. -/
  | connectionClosed
  /-- A `circ.Reader.Read(n)` that cannot deliver `n` bytes (the channel was
  stopped or errored); pass-through I/O error. -/
  | insufficientBytes
  /-- The error `packets.ErrOversizedLengthIndicator` from the fixed-header decode. -/
  | oversizedLengthIndicator
  /-- The "No valid packet available" error: unknown control-byte packet type. -/
  | noValidPacket
  /-- A failed `Write` on the byte-channel writer. -/
  | writeFailed
deriving DecidableEq, Repr

/-- Modelled from the spec: packet kind constant of the external codec
(`packets.Connect`), MQTT 3.1.1 control-type numbering 1–14. -/
def Connect : Nat := 1

/-- Modelled from the spec: `packets.Connack`. -/
def Connack : Nat := 2

/-- Modelled from the spec: `packets.Publish`. -/
def Publish : Nat := 3

/-- Modelled from the spec: `packets.Puback`. -/
def Puback : Nat := 4

/-- Modelled from the spec: `packets.Pubrec`. -/
def Pubrec : Nat := 5

/-- Modelled from the spec: `packets.Pubrel`. -/
def Pubrel : Nat := 6

/-- Modelled from the spec: `packets.Pubcomp`. -/
def Pubcomp : Nat := 7

/-- Modelled from the spec: `packets.Subscribe`. -/
def Subscribe : Nat := 8

/-- Modelled from the spec: `packets.Suback`. -/
def Suback : Nat := 9

/-- Modelled from the spec: `packets.Unsubscribe`. -/
def Unsubscribe : Nat := 10

/-- Modelled from the spec: `packets.Unsuback`. -/
def Unsuback : Nat := 11

/-- Modelled from the spec: `packets.Pingreq`. -/
def Pingreq : Nat := 12

/-- Modelled from the spec: `packets.Pingresp`. -/
def Pingresp : Nat := 13

/-- Modelled from the spec: `packets.Disconnect`. -/
def Disconnect : Nat := 14

/-- The `packets.FixedHeader` substructure: control type, flag bits and the
decoded remaining length.  `ptype` stands for the Go field `Type` (a Lean
keyword).  Bytes and the packet type are modelled as `Nat`. -/
structure FixedHeader where
  ptype : Nat
  dup : Bool
  qos : Nat
  retain : Bool
  remaining : Nat
deriving DecidableEq, Repr

/-- The slice of a `packets.Packet` the session core inspects: its fixed
header and its packet id.  The remaining per-variant payload fields are
owned by the external codec and play no role in the session logic. -/
structure Packet where
  fixedHeader : FixedHeader
  packetID : Nat
deriving DecidableEq, Repr

/-- Modelled from the spec: `packets.FixedHeader.Decode(headerByte)` —
"peeks 1 byte and decodes packet type and flags" (type in bits 7–4, dup in
bit 3, qos in bits 2–1, retain in bit 0); the spec attaches no failure to
this step, so the model always succeeds. -/
def fhDecode (b : Nat) : Except Err FixedHeader :=
  .ok { ptype := b / 16, dup := b / 8 % 2 == 1, qos := b / 2 % 4,
        retain := b % 2 == 1, remaining := 0 }

/-- Modelled from the spec: `binary.Uvarint` (Go standard library) on the
accumulated length bytes — base-128 little-endian with bit 7 as the
continuation bit; a buffer that ends without a terminator byte yields 0. -/
def uvarintAux : List Nat → Nat → Nat → Nat
  | [], _, _ => 0
  | b :: rest, shift, x =>
    if b < 128 then x + b * 2 ^ shift
    else uvarintAux rest (shift + 7) (x + b % 128 * 2 ^ shift)

/-- Entry point of `binary.Uvarint` (value component; the byte count is unused
by the source). -/
def uvarint (buf : List Nat) : Nat := uvarintAux buf 0 0

/-- Modelled from the spec: `circ.Reader.Read(n)` — blocks until at least
`n` bytes are buffered and returns a borrowed view of the first `n`
without advancing the tail.  The buffered bytes are the list; fewer than
`n` buffered bytes models the stopped/errored channel. -/
def circRead (r : List Nat) (n : Nat) : Except Err (List Nat) :=
  if n ≤ r.length then .ok (r.take n) else .error .insufficientBytes

/-- Modelled from the spec: `circ.Reader.CommitTail(n)` — advances the
logical tail past the `n` consumed bytes. -/
def circCommitTail (r : List Nat) (n : Nat) : List Nat := r.drop n

/-- The package variable `defaultKeepalive` (seconds). -/
def defaultKeepalive : Nat := 10

/-- The table `resendBackoff`: backoff seconds indexed by resend count. -/
def resendBackoff : List Int := [0, 1, 2, 10, 60, 120, 600, 3600, 21600]

/-- The cap `maxResends`: maximum number of times to retry sending QoS packets. -/
def maxResends : Nat := 6

/-- Model of `Client.refreshDeadline(keepalive)`: the deadline installed on the
connection, as an optional seconds-from-now delta.  `none` models the nil
`time.Time` that disables the deadline when keepalive is 0.  The Go sum
`keepalive+(keepalive/2)` is `uint16` arithmetic, hence the `% 65536`;
the argument is a `uint16`, i.e. `keepalive < 65536`. -/
def refreshDeadline (keepalive : Nat) : Option Nat :=
  if 0 < keepalive then some ((keepalive + keepalive / 2) % 65536) else none

/-- An `InFlightMessage`: the in-flight packet, the unix time it was last
sent, and how many times it was resent (`resends` is unexported in Go). -/
structure InFlightMessage where
  packet : Packet
  sent : Int
  resends : Nat
deriving DecidableEq, Repr

/-- The `InFlight` map keyed on packet id, as an association list with
distinct keys (Go map). -/
abbrev Table := List (Nat × InFlightMessage)

/-- Model of `InFlight.Set(key, in)`: store keyed on message id, replacing any
existing entry for the key. -/
def InFlightSet : Table → Nat → InFlightMessage → Table
  | [], k, v => [(k, v)]
  | (k₀, v₀) :: t, k, v =>
    if k₀ = k then (k, v) :: t else (k₀, v₀) :: InFlightSet t k v

/-- Model of `InFlight.Delete(key)`: remove the entry for the key. -/
def InFlightDelete : Table → Nat → Table
  | [], _ => []
  | (k₀, v₀) :: t, k =>
    if k₀ = k then InFlightDelete t k else (k₀, v₀) :: InFlightDelete t k

/-- The fields of a `Client` the specified claims are about: identity,
listener id, session flags, subscription notes, the in-flight table, the
packet-id counter, the atomic `done` flag and the currently installed
deadline delta (see `refreshDeadline`). -/
structure ClientModel where
  id : String
  listener : String
  keepalive : Nat
  cleanSession : Bool
  subscriptions : List (String × Nat)
  inFlight : Table
  packetID : Nat
  done : Nat
  deadlineDelta : Option Nat
deriving DecidableEq, Repr

/-- Model of `NewClient`: a freshly constructed client before `Identify` runs.  Go
zero values give the empty id, listener, username, `cleanSession = false`,
`packetID = 0` and `done = 0`; the keepalive is `defaultKeepalive`, the
subscription map and in-flight map are freshly allocated empty maps, and
`refreshDeadline(keepalive)` is invoked on the (non-nil) connection. -/
def NewClient : ClientModel :=
  { id := "", listener := "", keepalive := defaultKeepalive,
    cleanSession := false, subscriptions := [], inFlight := [],
    packetID := 0, done := 0,
    deadlineDelta := refreshDeadline defaultKeepalive }

/-- Model of `Clients.GetByListener(id)`: the registered clients whose `Listener`
equals `id` and whose atomic `done` flag is still 0.  The registry map is
modelled as the list of its values (iteration order is unspecified). -/
def GetByListener (cls : List ClientModel) (lid : String) : List ClientModel :=
  cls.filter (fun v => v.listener == lid && v.done == 0)

/-- Model of `Client.NextPacketID`: given the current counter value, returns the
new counter value and the id handed out.  Mirrors the source: if the
loaded value is 65535 or 0, store and return 1; otherwise
`atomic.AddUint32` (wrapping `uint32` arithmetic). -/
def NextPacketID (i : Nat) : Nat × Nat :=
  if i = 65535 ∨ i = 0 then (1, 1)
  else ((i + 1) % 4294967296, (i + 1) % 4294967296)

/-- The counter value after `n` sequential `NextPacketID` calls starting
from the initial counter value 0. -/
def packetIDAfter : Nat → Nat
  | 0 => 0
  | n + 1 => (NextPacketID (packetIDAfter n)).1

/-- The id returned by the `(n+1)`-th sequential `NextPacketID` call
starting from the initial counter value 0. -/
def packetIDReturn (n : Nat) : Nat := (NextPacketID (packetIDAfter n)).2

/-- The observable state of the byte-channel writer: how many times its
exclusive lock has been taken and the frames pushed into it (modelled from
the spec's ByteChannel writer interface). -/
structure WriterModel where
  lockCount : Nat
  chunks : List (List Nat)
deriving DecidableEq, Repr

/-- Model of `Client.WritePacket(pk)` against the writer state.  `done` is the
client's atomic done flag; `enc` is the per-variant `encode` of the
external packet codec (modelled from the spec), dispatched on the packet
type exactly as the source's switch (14 known kinds, default error).  On
the done fast path the source returns `ErrConnectionClosed` before taking
the writer's lock.  The deadline refresh after a successful write is
`refreshDeadline` and not part of the writer state. -/
def WritePacket (enc : Nat → Packet → Except Err (List Nat)) (done : Nat)
    (pk : Packet) (w : WriterModel) : Except Err Nat × WriterModel :=
  if done = 1 then (.error .connectionClosed, w)
  else
    let w₁ : WriterModel := { w with lockCount := w.lockCount + 1 }
    let ty := pk.fixedHeader.ptype
    let encoded : Except Err (List Nat) :=
      if ty = Connect ∨ ty = Connack ∨ ty = Publish ∨ ty = Puback ∨
         ty = Pubrec ∨ ty = Pubrel ∨ ty = Pubcomp ∨ ty = Subscribe ∨
         ty = Suback ∨ ty = Unsubscribe ∨ ty = Unsuback ∨ ty = Pingreq ∨
         ty = Pingresp ∨ ty = Disconnect then enc ty pk
      else .error .noValidPacket
    match encoded with
    | .error e => (.error e, w₁)
    | .ok bs => (.ok bs.length, { w₁ with chunks := w₁.chunks ++ [bs] })

/-- The remaining-length loop of `ReadFixedHeader` (`for ; n < 6; n++`).
`fuel` is `6 - n`, so the initial call has `fuel = 4`, `i = 1`, `n = 2`;
`fuel = 0` is the loop falling through with the accumulated buffer.  Each
iteration peeks `n` bytes, appends byte `p[i]`, stops if it is below 128
(continuation bit clear), and returns the oversized-length error once `i`
reaches 4. -/
def rflLoop (r : List Nat) : Nat → List Nat → Nat → Nat →
    Except Err (List Nat × Nat)
  | 0, buf, _, n => .ok (buf, n)
  | fuel + 1, buf, i, n =>
    match circRead r n with
    | .error e => .error e
    | .ok p =>
      let b := p.getD i 0
      if b < 128 then .ok (buf ++ [b], n)
      else if i + 1 = 4 then .error .oversizedLengthIndicator
      else rflLoop r fuel (buf ++ [b]) (i + 1) (n + 1)

/-- Model of `Client.ReadFixedHeader(fh)`: peek the control byte, decode type and
flags, run the remaining-length loop, decode the accumulated bytes as a
varint into `Remaining`, and commit the `n` consumed bytes.  Returns the
decoded header and the reader after the commit; on error the reader is
untouched (the source returns before `CommitTail`). -/
def ReadFixedHeader (r : List Nat) : Except Err (FixedHeader × List Nat) :=
  match circRead r 1 with
  | .error e => .error e
  | .ok p =>
    match fhDecode (p.getD 0 0) with
    | .error e => .error e
    | .ok fh0 =>
      match rflLoop r 4 [] 1 2 with
      | .error e => .error e
      | .ok (buf, n) =>
        .ok ({ fh0 with remaining := uvarint buf }, circCommitTail r n)

/-- The type switch of `Client.ReadPacket`: the eleven kinds CONNECT
through UNSUBACK dispatch to the per-variant `decode` of the external
codec (`dec`, modelled from the spec); PINGREQ, PINGRESP and DISCONNECT
decode nothing; the default case is the "no valid packet" error. -/
def readPacketSwitch (dec : Nat → Packet → List Nat → Packet × Option Err)
    (ty : Nat) (pk : Packet) (px : List Nat) : Packet × Option Err :=
  if ty = Connect ∨ ty = Connack ∨ ty = Publish ∨ ty = Puback ∨
     ty = Pubrec ∨ ty = Pubrel ∨ ty = Pubcomp ∨ ty = Subscribe ∨
     ty = Suback ∨ ty = Unsubscribe ∨ ty = Unsuback then dec ty pk px
  else if ty = Pingreq ∨ ty = Pingresp ∨ ty = Disconnect then (pk, none)
  else (pk, some Err.noValidPacket)

/-- Model of `Client.ReadPacket(fh)`: build a packet from the fixed header; if
`Remaining` is 0 return it at once; otherwise peek `Remaining` bytes, copy
them, run the type switch (`readPacketSwitch`), then commit `Remaining`
bytes — the source commits even when the decode errored.  Returns the
packet, the reader after the commit, and the error slot. -/
def ReadPacket (dec : Nat → Packet → List Nat → Packet × Option Err)
    (fh : FixedHeader) (r : List Nat) : Packet × List Nat × Option Err :=
  let pk : Packet := { fixedHeader := fh, packetID := 0 }
  if fh.remaining = 0 then (pk, r, none)
  else
    match circRead r fh.remaining with
    | .error e => (pk, r, some e)
    | .ok p =>
      let res := readPacketSwitch dec fh.ptype pk p
      (res.1, circCommitTail r fh.remaining, res.2)

/-- The in-place update of one eligible in-flight record inside
`ResendInflight`: set the DUP flag when the packet is a PUBLISH, bump the
resend count, and stamp the current unix time. -/
def resendAdvance (now : Int) (tk : InFlightMessage) : InFlightMessage :=
  let pk :=
    if tk.packet.fixedHeader.ptype = Publish then
      { tk.packet with fixedHeader := { tk.packet.fixedHeader with dup := true } }
    else tk.packet
  { packet := pk, sent := now, resends := tk.resends + 1 }

/-- The loop of `ResendInflight` over the snapshot of in-flight records.
`writes j` tells whether the `j`-th attempted `WritePacket` of the pass
succeeds (the write path is exercised separately; its error aborts the
pass immediately, after the record was already stored back).  `t` is the
live table mutated by `InFlight.Delete`/`InFlight.Set` on the record's own
`Packet.PacketID`, `pending` the records still to visit.  Mirrors the
source: drop records at or past `maxResends`; skip when not forced and
the backoff for the record's resend count has not elapsed (or the dead
`len(resendBackoff) < resends` disjunct holds); otherwise advance the
record, store it, then attempt the write. -/
def resendPass (force : Bool) (now : Int) (writes : Nat → Bool) :
    Nat → Table → Table → Table × Option Err
  | _, t, [] => (t, none)
  | j, t, (_, tk) :: rest =>
    if maxResends ≤ tk.resends then
      resendPass force now writes j
        (InFlightDelete t tk.packet.packetID) rest
    else if force = false ∧
        (now - tk.sent < resendBackoff.getD tk.resends 0 ∨
          resendBackoff.length < tk.resends) then
      resendPass force now writes j t rest
    else
      let tk' := resendAdvance now tk
      let t' := InFlightSet t tk'.packet.packetID tk'
      if writes j then resendPass force now writes (j + 1) t' rest
      else (t', some Err.writeFailed)

/-- Model of `Client.ResendInflight(force)`: no-op on an empty table, otherwise one
pass of `resendPass` over the table's own snapshot (`InFlight.GetAll`
returns the backing map). -/
def ResendInflight (force : Bool) (now : Int) (writes : Nat → Bool)
    (t : Table) : Table × Option Err :=
  if t.length = 0 then (t, none)
  else resendPass force now writes 0 t t

/-- The observable steps of the `Stop` shutdown body, in source order:
`r.Stop()`, `w.Stop()`, `endedW.Wait()`, `endedR.Wait()`, then the atomic
store of `done`. -/
inductive StopEvent where
  | stopReader
  | stopWriter
  | waitWriterEnded
  | waitReaderEnded
  | setDone
deriving DecidableEq, BEq, Repr

/-- The event sequence of one execution of the shutdown body. -/
def stopBody : List StopEvent :=
  [.stopReader, .stopWriter, .waitWriterEnded, .waitReaderEnded, .setDone]

/-- The lifecycle state touched by `Stop`: the `sync.Once` gate, the
atomic `done` flag, and the accumulated trace of shutdown-body events. -/
structure StopState where
  onceUsed : Bool
  done : Nat
  trace : List StopEvent
deriving DecidableEq, Repr

/-- One call of `Client.Stop()`: the `endOnce` gate runs the shutdown body
at most once (`sync.Once` serializes concurrent callers, so calls are
modelled as a sequence). -/
def stop (s : StopState) : StopState :=
  if s.onceUsed then s
  else { onceUsed := true, done := 1, trace := s.trace ++ stopBody }

/-- Runs `n` sequential calls of `Stop`. -/
def stopN : Nat → StopState → StopState
  | 0, s => s
  | n + 1, s => stopN n (stop s)

/-- The lifecycle state of a freshly constructed client: gate unused,
`done = 0`, nothing executed. -/
def initStopState : StopState := { onceUsed := false, done := 0, trace := [] }

/-- A decode family that decodes nothing: used to instantiate the codec
parameter at concrete inputs. -/
def decNop : Nat → Packet → List Nat → Packet × Option Err :=
  fun _ pk _ => (pk, none)

/-- A fixed header with the reserved control type 15 (not one of the
fourteen known kinds) and remaining length 0. -/
def fhUnknown0 : FixedHeader :=
  { ptype := 15, dup := false, qos := 0, retain := false, remaining := 0 }

/-- A fixed header with the reserved control type 15 and remaining
length 1. -/
def fhUnknown1 : FixedHeader :=
  { ptype := 15, dup := false, qos := 0, retain := false, remaining := 1 }

/-- A QoS-1 PUBLISH packet with packet id 1, in-flight and never resent. -/
def ifmFresh : InFlightMessage :=
  { packet := { fixedHeader := { ptype := 3, dup := false, qos := 1,
                                 retain := false, remaining := 0 },
                packetID := 1 },
    sent := 0, resends := 0 }

/-- A QoS-1 PUBLISH packet with packet id 2 whose resend count has reached
`maxResends`. -/
def ifmExhausted : InFlightMessage :=
  { packet := { fixedHeader := { ptype := 3, dup := false, qos := 1,
                                 retain := false, remaining := 0 },
                packetID := 2 },
    sent := 0, resends := 6 }

/-- A two-record in-flight table: a fresh record ahead of an exhausted
one in snapshot order. -/
def tblMixed : Table := [(1, ifmFresh), (2, ifmExhausted)]

/-! ## Association-list helper lemmas -/

theorem lookup_set_self (t : Table) (k : Nat) (v : InFlightMessage) :
    List.lookup k (InFlightSet t k v) = some v := by
  induction t with
  | nil => simp [InFlightSet, List.lookup_cons]
  | cons p t ih =>
    obtain ⟨k₀, v₀⟩ := p
    by_cases h : k₀ = k
    · simp [InFlightSet, h, List.lookup_cons]
    · have hb : (k == k₀) = false := beq_false_of_ne (Ne.symm h)
      simp [InFlightSet, h, List.lookup_cons, hb, ih]

theorem lookup_set_ne (t : Table) {k k' : Nat} (v : InFlightMessage)
    (h : k ≠ k') : List.lookup k (InFlightSet t k' v) = List.lookup k t := by
  have hb : (k == k') = false := beq_false_of_ne h
  induction t with
  | nil => simp [InFlightSet, List.lookup_cons, hb]
  | cons p t ih =>
    obtain ⟨k₀, v₀⟩ := p
    by_cases h₀ : k₀ = k'
    · subst h₀
      simp [InFlightSet, List.lookup_cons, hb]
    · simp [InFlightSet, h₀, List.lookup_cons, ih]

theorem lookup_del_self (t : Table) (k : Nat) :
    List.lookup k (InFlightDelete t k) = none := by
  induction t with
  | nil => simp [InFlightDelete]
  | cons p t ih =>
    obtain ⟨k₀, v₀⟩ := p
    by_cases h : k₀ = k
    · simp [InFlightDelete, h, ih]
    · have hb : (k == k₀) = false := beq_false_of_ne (Ne.symm h)
      simp [InFlightDelete, h, List.lookup_cons, hb, ih]

theorem lookup_del_ne (t : Table) {k k' : Nat} (h : k ≠ k') :
    List.lookup k (InFlightDelete t k') = List.lookup k t := by
  induction t with
  | nil => simp [InFlightDelete]
  | cons p t ih =>
    obtain ⟨k₀, v₀⟩ := p
    by_cases h₀ : k₀ = k'
    · subst h₀
      have hb : (k == k₀) = false := beq_false_of_ne h
      simp [InFlightDelete, List.lookup_cons, hb, ih]
    · simp [InFlightDelete, h₀, List.lookup_cons, ih]

theorem lookup_of_mem_nodupKeys {t : Table} {p : Nat × InFlightMessage}
    (hnd : (t.map Prod.fst).Nodup) (hp : p ∈ t) :
    List.lookup p.1 t = some p.2 := by
  induction t with
  | nil => simp at hp
  | cons q t ih =>
    obtain ⟨a, b⟩ := q
    rcases List.mem_cons.mp hp with hp | hp
    · subst hp
      simp [List.lookup_cons]
    · have hnd' := List.nodup_cons.mp
        (show (a :: t.map Prod.fst).Nodup from hnd)
      have hne : p.1 ≠ a := by
        intro e
        exact hnd'.1 (e ▸ List.mem_map_of_mem Prod.fst hp)
      have hb : (p.1 == a) = false := beq_false_of_ne hne
      simp only [List.lookup_cons, hb]
      exact ih hnd'.2 hp

/-! ## Sequential packet-id allocation -/

theorem packetIDAfter_succ (n : Nat) :
    packetIDAfter (n + 1) = n % 65535 + 1 := by
  induction n with
  | zero => rfl
  | succ m ih =>
    show (NextPacketID (packetIDAfter (m + 1))).1 = (m + 1) % 65535 + 1
    rw [ih]
    by_cases h : m % 65535 = 65534
    · have h1 : m % 65535 + 1 = 65535 := by omega
      rw [h1, NextPacketID, if_pos (Or.inl rfl)]
      omega
    · have hlt : m % 65535 < 65535 := Nat.mod_lt _ (by omega)
      rw [NextPacketID, if_neg (by omega)]
      show (m % 65535 + 1 + 1) % 4294967296 = (m + 1) % 65535 + 1
      rw [Nat.mod_eq_of_lt (by omega)]
      omega

theorem NextPacketID_snd (i : Nat) :
    (NextPacketID i).2 = (NextPacketID i).1 := by
  rw [NextPacketID]
  split <;> rfl

/-! ## Shutdown protocol -/

theorem stop_initStopState :
    stop initStopState = { onceUsed := true, done := 1, trace := stopBody } := by
  rfl

theorem stopN_stopped (n : Nat) :
    stopN n { onceUsed := true, done := 1, trace := stopBody }
      = { onceUsed := true, done := 1, trace := stopBody } := by
  induction n with
  | zero => rfl
  | succ m ih =>
    show stopN m (stop _) = _
    rw [show stop { onceUsed := true, done := 1, trace := stopBody }
          = { onceUsed := true, done := 1, trace := stopBody } from rfl]
    exact ih

/-- C10: a freshly constructed client (`NewClient`, before `Identify`
runs) has the default 10-second keepalive, clean-session false, an empty
subscription map, an empty in-flight table, and an installed deadline of
`10 + 10/2 = 15` seconds from now. -/
theorem c10_newClient_defaults :
    NewClient.keepalive = 10 ∧ NewClient.cleanSession = false ∧
    NewClient.subscriptions = [] ∧ NewClient.inFlight = [] ∧
    NewClient.done = 0 ∧
    NewClient.deadlineDelta = some 15 ∧ 15 = 10 + 10 / 2 := by
  refine ⟨rfl, rfl, rfl, rfl, rfl, ?_, rfl⟩
  rfl

/-- C1: evaluation of `ReadFixedHeader` at the two decisive inputs.  The
well-formed four-byte remaining-length field `80 80 80 01` (three
continuation bytes followed by a terminator, value 2097152) is rejected
with the oversized-length-indicator error — the loop errors as soon as
`i` reaches 4, i.e. after the third continuation byte, without ever
peeking the fifth byte — while a three-byte length field `80 80 01`
(value 16384) is decoded and committed as expected. -/
theorem c1_fixedHeader_eval :
    ReadFixedHeader [48, 128, 128, 128, 1] = .error .oversizedLengthIndicator
    ∧ ReadFixedHeader [48, 128, 128, 1]
      = .ok ({ ptype := 3, dup := false, qos := 0, retain := false,
               remaining := 16384 }, []) := by
  constructor <;> rfl

/-- C2 counterexample: a fixed header with the reserved (unknown) control
type 15 and remaining length 0 makes `ReadPacket` return with **no**
error — the source returns on `Remaining == 0` before the type switch —
contradicting the claim that unknown types yield the "no valid packet"
error even when the remaining length is 0. -/
theorem c2_remainingZero_counterexample :
    fhUnknown0.ptype = 15 ∧ 14 < fhUnknown0.ptype ∧ fhUnknown0.remaining = 0 ∧
    (ReadPacket decNop fhUnknown0 []).2.2 = none := by
  exact ⟨rfl, by decide, rfl, rfl⟩

/-- C2 (amended): for a fixed header whose packet type is not one of the
fourteen known MQTT kinds, `ReadPacket` returns the "no valid packet"
error whenever the remaining length is positive (and the bytes are
buffered); when the remaining length is 0 it returns the bare packet with
no error and without touching the reader. -/
theorem c2_unknownType (dec : Nat → Packet → List Nat → Packet × Option Err)
    (fh : FixedHeader) (r : List Nat)
    (hty : ¬(1 ≤ fh.ptype ∧ fh.ptype ≤ 14)) :
    (fh.remaining = 0 →
      ReadPacket dec fh r = ({ fixedHeader := fh, packetID := 0 }, r, none)) ∧
    (0 < fh.remaining → fh.remaining ≤ r.length →
      (ReadPacket dec fh r).2.2 = some Err.noValidPacket) := by
  constructor
  · intro h0
    simp [ReadPacket, h0]
  · intro hpos hlen
    have h0 : ¬fh.remaining = 0 := by omega
    have hread : circRead r fh.remaining = .ok (r.take fh.remaining) := by
      rw [circRead, if_pos hlen]
    have hsw : readPacketSwitch dec fh.ptype
        { fixedHeader := fh, packetID := 0 } (r.take fh.remaining)
        = ({ fixedHeader := fh, packetID := 0 }, some Err.noValidPacket) := by
      rw [readPacketSwitch, if_neg, if_neg]
      · simp only [Pingreq, Pingresp, Disconnect]
        omega
      · simp only [Connect, Connack, Publish, Puback, Pubrec, Pubrel,
          Pubcomp, Subscribe, Suback, Unsubscribe, Unsuback]
        omega
    simp [ReadPacket, h0, hread, hsw]

/-- Witness for C2 (amended) at control type 15 with remaining length 1
over a one-byte buffer. -/
theorem c2_unknownType_witness :
    (¬(1 ≤ fhUnknown1.ptype ∧ fhUnknown1.ptype ≤ 14)) ∧
    (ReadPacket decNop fhUnknown1 [7]).2.2 = some Err.noValidPacket := by
  exact ⟨by decide,
    (c2_unknownType decNop fhUnknown1 [7] (by decide)).2 (by decide) (by decide)⟩

/-- C3: for a 16-bit keepalive `k`, `refreshDeadline` installs an expiry
of `now + ((k + k/2) mod 2^16)` seconds when `k > 0` (so exactly
`now + k + k/2`, 1.5 times the keepalive, whenever the `uint16` sum does
not wrap), and installs no deadline when the keepalive is 0. -/
theorem c3_refreshDeadline (k : Nat) (_hk : k < 65536) :
    refreshDeadline 0 = none ∧
    (0 < k → refreshDeadline k = some ((k + k / 2) % 65536)) ∧
    (0 < k → k + k / 2 < 65536 → refreshDeadline k = some (k + k / 2)) := by
  refine ⟨rfl, fun h0 => ?_, fun h0 hw => ?_⟩
  · rw [refreshDeadline, if_pos h0]
  · rw [refreshDeadline, if_pos h0, Nat.mod_eq_of_lt hw]

/-- Witness for C3 at the CONNECT-scenario keepalive of 60 seconds. -/
theorem c3_refreshDeadline_witness :
    (60 : Nat) < 65536 ∧ 0 < 60 ∧ refreshDeadline 60 = some 90 := by
  refine ⟨by decide, by decide, ?_⟩
  have h := (c3_refreshDeadline 60 (by decide)).2.2 (by decide) (by decide)
  simpa using h

/-- C4: over any number of sequential calls from the initial counter
value 0, the `(n+1)`-th `NextPacketID` call returns `n % 65535 + 1`, i.e.
the sequence `1, 2, …, 65535, 1, 2, …`; every returned value lies in
`[1, 65535]` (in particular 0 is never returned). -/
theorem c4_nextPacketID_sequence (n : Nat) :
    packetIDReturn n = n % 65535 + 1 ∧
    1 ≤ packetIDReturn n ∧ packetIDReturn n ≤ 65535 := by
  have hr : packetIDReturn n = n % 65535 + 1 := by
    rw [packetIDReturn, NextPacketID_snd]
    exact packetIDAfter_succ n
  have hlt : n % 65535 < 65535 := Nat.mod_lt _ (by omega)
  exact ⟨hr, by omega, by omega⟩

/-- C5: when the session's `done` flag is set, `WritePacket` returns
`ErrConnectionClosed` at once, leaving the writer untouched: the lock
count is not increased, nothing is encoded, and no bytes are pushed. -/
theorem c5_writeAfterDone (enc : Nat → Packet → Except Err (List Nat))
    (pk : Packet) (w : WriterModel) :
    WritePacket enc 1 pk w = (.error .connectionClosed, w) := by
  rw [WritePacket, if_pos rfl]

/-- C6: `GetByListener id` returns exactly the registered sessions whose
`Listener` equals `id` and whose `done` flag is 0 — so no session with
`done = 1` ever appears in the result. -/
theorem c6_getByListener (cls : List ClientModel) (lid : String)
    (c : ClientModel) :
    c ∈ GetByListener cls lid ↔ c ∈ cls ∧ c.listener = lid ∧ c.done = 0 := by
  simp [GetByListener, List.mem_filter, and_assoc]

/-! ## Retransmission-pass lemmas -/

theorem resendAdvance_packetID (now : Int) (tk : InFlightMessage) :
    (resendAdvance now tk).packet.packetID = tk.packet.packetID := by
  rw [resendAdvance]
  split <;> rfl

theorem resendAdvance_resends (now : Int) (tk : InFlightMessage) :
    (resendAdvance now tk).resends = tk.resends + 1 := rfl

theorem resendAdvance_sent (now : Int) (tk : InFlightMessage) :
    (resendAdvance now tk).sent = now := rfl

theorem lookup_del_some {t : Table} {k k' : Nat} {v : InFlightMessage}
    (h : List.lookup k (InFlightDelete t k') = some v) :
    List.lookup k t = some v := by
  by_cases hkk : k = k'
  · subst hkk
    rw [lookup_del_self] at h
    exact absurd h (by simp)
  · rwa [lookup_del_ne t hkk] at h

theorem mem_of_lookup_eq_some {t : Table} {k : Nat} {v : InFlightMessage}
    (h : List.lookup k t = some v) : (k, v) ∈ t := by
  induction t with
  | nil => simp [List.lookup] at h
  | cons q rest ih =>
    obtain ⟨a, b⟩ := q
    by_cases hka : k = a
    · subst hka
      rw [List.lookup_cons, beq_self_eq_true] at h
      simp only [Option.some.injEq] at h
      subst h
      exact List.mem_cons_self _ _
    · rw [List.lookup_cons, beq_false_of_ne hka] at h
      exact List.mem_cons_of_mem _ (ih h)

theorem resendPass_lookup_not_mem (force : Bool) (now : Int)
    (writes : Nat → Bool) :
    ∀ (pending t : Table) (j k : Nat),
      (∀ p ∈ pending, p.2.packet.packetID = p.1) →
      k ∉ pending.map Prod.fst →
      List.lookup k (resendPass force now writes j t pending).1
        = List.lookup k t := by
  intro pending
  induction pending with
  | nil => intro t j k _ _; rfl
  | cons q rest ih =>
    intro t j k hid hk
    obtain ⟨k₀, tk⟩ := q
    have hid₀ : tk.packet.packetID = k₀ := hid _ (List.mem_cons_self _ _)
    have hkne : k ≠ k₀ := fun e => hk (by simp [e])
    have hidr : ∀ p ∈ rest, p.2.packet.packetID = p.1 :=
      fun p hp => hid p (List.mem_cons_of_mem _ hp)
    have hkr : k ∉ rest.map Prod.fst := fun hm => hk (by simp [hm])
    simp only [resendPass, hid₀, resendAdvance_packetID]
    split
    · rw [ih _ _ _ hidr hkr, lookup_del_ne _ hkne]
    · split
      · exact ih _ _ _ hidr hkr
      · split
        · rw [ih _ _ _ hidr hkr, lookup_set_ne _ _ hkne]
        · exact lookup_set_ne _ _ hkne

theorem resendPass_mono (force : Bool) (now : Int) (writes : Nat → Bool) :
    ∀ (pending t : Table) (j : Nat),
      (pending.map Prod.fst).Nodup →
      (∀ p ∈ pending, p.2.packet.packetID = p.1) →
      (∀ p ∈ pending, List.lookup p.1 t = some p.2) →
      ∀ k v', List.lookup k (resendPass force now writes j t pending).1
          = some v' →
        ∃ v, List.lookup k t = some v ∧ v.resends ≤ v'.resends := by
  intro pending
  induction pending with
  | nil => intro t j _ _ _ k v' h; exact ⟨v', h, le_refl _⟩
  | cons q rest ih =>
    intro t j hnd hid hmem k v' h
    obtain ⟨k₀, tk⟩ := q
    have hid₀ : tk.packet.packetID = k₀ := hid _ (List.mem_cons_self _ _)
    have hnd' := List.nodup_cons.mp
      (show (k₀ :: rest.map Prod.fst).Nodup from hnd)
    have hidr : ∀ p ∈ rest, p.2.packet.packetID = p.1 :=
      fun p hp => hid p (List.mem_cons_of_mem _ hp)
    have hmem₀ : List.lookup k₀ t = some tk := hmem _ (List.mem_cons_self _ _)
    have hner : ∀ p ∈ rest, p.1 ≠ k₀ := by
      intro p hp e
      exact hnd'.1 (e ▸ List.mem_map_of_mem Prod.fst hp)
    simp only [resendPass, hid₀, resendAdvance_packetID] at h
    rcases Nat.decLe maxResends tk.resends with h1 | h1
    · rw [if_neg h1] at h
      split at h
      · -- skipped record: table unchanged
        exact ih t j hnd'.2 hidr
          (fun p hp => hmem p (List.mem_cons_of_mem _ hp)) k v' h
      · -- eligible record: advanced and stored before the write
        split at h
        · -- write succeeded, pass continues on the updated table
          have hmemr : ∀ p ∈ rest,
              List.lookup p.1 (InFlightSet t k₀ (resendAdvance now tk))
                = some p.2 := by
            intro p hp
            rw [lookup_set_ne _ _ (hner p hp)]
            exact hmem p (List.mem_cons_of_mem _ hp)
          obtain ⟨v, hv, hle⟩ := ih _ _ hnd'.2 hidr hmemr k v' h
          by_cases hkk : k = k₀
          · subst hkk
            rw [lookup_set_self] at hv
            simp only [Option.some.injEq] at hv
            subst hv
            exact ⟨tk, hmem₀, by
              rw [resendAdvance_resends] at hle
              omega⟩
          · rw [lookup_set_ne _ _ hkk] at hv
            exact ⟨v, hv, hle⟩
        · -- write failed: the pass stops with the advanced record stored
          simp only at h
          by_cases hkk : k = k₀
          · subst hkk
            rw [lookup_set_self] at h
            simp only [Option.some.injEq] at h
            subst h
            exact ⟨tk, hmem₀, by rw [resendAdvance_resends]; omega⟩
          · rw [lookup_set_ne _ _ hkk] at h
            exact ⟨v', h, le_refl _⟩
    · -- record past the resend threshold: deleted, pass continues
      rw [if_pos h1] at h
      have hmemr : ∀ p ∈ rest,
          List.lookup p.1 (InFlightDelete t k₀) = some p.2 := by
        intro p hp
        rw [lookup_del_ne _ (hner p hp)]
        exact hmem p (List.mem_cons_of_mem _ hp)
      obtain ⟨v, hv, hle⟩ := ih _ _ hnd'.2 hidr hmemr k v' h
      exact ⟨v, lookup_del_some hv, hle⟩

theorem resendPass_drops (force : Bool) (now : Int) (writes : Nat → Bool) :
    ∀ (pending t : Table) (j : Nat),
      (pending.map Prod.fst).Nodup →
      (∀ p ∈ pending, p.2.packet.packetID = p.1) →
      (resendPass force now writes j t pending).2 = none →
      ∀ p ∈ pending, maxResends ≤ p.2.resends →
        List.lookup p.1 (resendPass force now writes j t pending).1
          = none := by
  intro pending
  induction pending with
  | nil => intro t j _ _ _ p hp; exact absurd hp (by simp)
  | cons q rest ih =>
    intro t j hnd hid herr p hp hge
    obtain ⟨k₀, tk⟩ := q
    have hid₀ : tk.packet.packetID = k₀ := hid _ (List.mem_cons_self _ _)
    have hnd' := List.nodup_cons.mp
      (show (k₀ :: rest.map Prod.fst).Nodup from hnd)
    have hidr : ∀ p ∈ rest, p.2.packet.packetID = p.1 :=
      fun p hp => hid p (List.mem_cons_of_mem _ hp)
    simp only [resendPass, hid₀, resendAdvance_packetID] at herr ⊢
    rcases Nat.decLe maxResends tk.resends with h1 | h1
    · rw [if_neg h1] at herr ⊢
      rcases List.mem_cons.mp hp with hp0 | hpr
      · -- the head record is below the threshold, contradiction
        rw [hp0] at hge
        exact absurd hge h1
      · by_cases hskip : force = false ∧
            (now - tk.sent < resendBackoff.getD tk.resends 0 ∨
              resendBackoff.length < tk.resends)
        · rw [if_pos hskip] at herr ⊢
          exact ih t j hnd'.2 hidr herr p hpr hge
        · rw [if_neg hskip] at herr ⊢
          by_cases hw : writes j = true
          · rw [if_pos hw] at herr ⊢
            exact ih _ _ hnd'.2 hidr herr p hpr hge
          · rw [if_neg hw] at herr
            simp at herr
    · rw [if_pos h1] at herr ⊢
      rcases List.mem_cons.mp hp with hp0 | hpr
      · -- the head record was deleted and its key never reappears
        have : p.1 = k₀ := by rw [hp0]
        rw [this,
          resendPass_lookup_not_mem force now writes rest _ j k₀ hidr hnd'.1,
          lookup_del_self]
      · exact ih _ _ hnd'.2 hidr herr p hpr hge

theorem resendPass_bound (force : Bool) (now : Int) (writes : Nat → Bool) :
    ∀ (pending t : Table) (j : Nat),
      (∀ k v, List.lookup k t = some v → v.resends ≤ maxResends) →
      ∀ k v', List.lookup k (resendPass force now writes j t pending).1
          = some v' →
        v'.resends ≤ maxResends := by
  intro pending
  induction pending with
  | nil => intro t j hb k v' h; exact hb k v' h
  | cons q rest ih =>
    intro t j hb k v' h
    obtain ⟨k₀, tk⟩ := q
    simp only [resendPass, resendAdvance_packetID] at h
    rcases Nat.decLe maxResends tk.resends with h1 | h1
    · rw [if_neg h1] at h
      split at h
      · exact ih t j hb k v' h
      · have hb' : ∀ k v,
            List.lookup k (InFlightSet t tk.packet.packetID
              (resendAdvance now tk)) = some v → v.resends ≤ maxResends := by
          intro k v hv
          by_cases hkk : k = tk.packet.packetID
          · subst hkk
            rw [lookup_set_self] at hv
            simp only [Option.some.injEq] at hv
            subst hv
            rw [resendAdvance_resends]
            omega
          · rw [lookup_set_ne _ _ hkk] at hv
            exact hb k v hv
        split at h
        · exact ih _ _ hb' k v' h
        · simp only at h
          exact hb' k v' h
    · rw [if_pos h1] at h
      exact ih _ _ (fun k v hv => hb k v (lookup_del_some hv)) k v' h

theorem ResendInflight_eq_pass (force : Bool) (now : Int) (writes : Nat → Bool)
    (t : Table) :
    ResendInflight force now writes t = resendPass force now writes 0 t t := by
  rw [ResendInflight]
  split
  · rename_i h
    rw [List.length_eq_zero.mp h]
    rfl
  · rfl

/-- C7: one step of a resend pass at a record below the resend threshold.
If `force` is false and `now - last_sent` is below the backoff for the
record's resend count, the record is skipped and the table is untouched;
otherwise the advanced record has its DUP flag set when it is a PUBLISH,
its resend count incremented, its `Sent` stamped with `now`, and it is
stored in the table **before** the write is attempted, so a failed write
still leaves the advanced counters in the table. -/
theorem c7_resendStep (force : Bool) (now : Int) (writes : Nat → Bool)
    (j : Nat) (t rest : Table) (k : Nat) (tk : InFlightMessage)
    (hres : tk.resends < maxResends) (hid : tk.packet.packetID = k) :
    ((force = false ∧ now - tk.sent < resendBackoff.getD tk.resends 0) →
      resendPass force now writes j t ((k, tk) :: rest)
        = resendPass force now writes j t rest) ∧
    ((force = true ∨ resendBackoff.getD tk.resends 0 ≤ now - tk.sent) →
      (resendAdvance now tk).resends = tk.resends + 1 ∧
      (resendAdvance now tk).sent = now ∧
      (tk.packet.fixedHeader.ptype = Publish →
        (resendAdvance now tk).packet.fixedHeader.dup = true) ∧
      (writes j = true →
        resendPass force now writes j t ((k, tk) :: rest)
          = resendPass force now writes (j + 1)
              (InFlightSet t k (resendAdvance now tk)) rest) ∧
      (writes j = false →
        resendPass force now writes j t ((k, tk) :: rest)
          = (InFlightSet t k (resendAdvance now tk), some Err.writeFailed) ∧
        List.lookup k (InFlightSet t k (resendAdvance now tk))
          = some (resendAdvance now tk))) := by
  have h1 : ¬maxResends ≤ tk.resends := by omega
  constructor
  · rintro ⟨hf, hlt⟩
    simp only [resendPass]
    rw [if_neg h1, if_pos ⟨hf, Or.inl hlt⟩]
  · intro helig
    have hskip : ¬(force = false ∧
        (now - tk.sent < resendBackoff.getD tk.resends 0 ∨
          resendBackoff.length < tk.resends)) := by
      rintro ⟨hf0, hor⟩
      rcases hor with hlt | hlen
      · rcases helig with hf | hle
        · rw [hf] at hf0; exact Bool.noConfusion hf0
        · exact absurd hlt (not_lt.mpr hle)
      · have hl : resendBackoff.length = 9 := rfl
        have hm : maxResends = 6 := rfl
        omega
    refine ⟨resendAdvance_resends now tk, resendAdvance_sent now tk,
      fun hpub => ?_, fun hw => ?_, fun hw => ?_⟩
    · rw [resendAdvance, if_pos hpub]
    · simp only [resendPass, resendAdvance_packetID, hid]
      rw [if_neg h1, if_neg hskip, if_pos hw]
    · constructor
      · simp only [resendPass, resendAdvance_packetID, hid]
        rw [if_neg h1, if_neg hskip, if_neg (by rw [hw]; exact Bool.noConfusion)]
      · exact lookup_set_self t k (resendAdvance now tk)

/-- Witness for C7 at a forced pass over a single fresh PUBLISH record
whose write fails: the pass returns the write error with the advanced
record already stored. -/
theorem c7_resendStep_witness :
    (ifmFresh.resends < maxResends ∧ ifmFresh.packet.packetID = 1) ∧
    (resendPass true 100 (fun _ => false) 0 [(1, ifmFresh)] [(1, ifmFresh)]
      = (InFlightSet [(1, ifmFresh)] 1 (resendAdvance 100 ifmFresh),
         some Err.writeFailed) ∧
     List.lookup 1 (InFlightSet [(1, ifmFresh)] 1 (resendAdvance 100 ifmFresh))
      = some (resendAdvance 100 ifmFresh)) := by
  refine ⟨⟨by decide, by decide⟩, ?_⟩
  exact ((c7_resendStep true 100 (fun _ => false) 0 [(1, ifmFresh)] []
    1 ifmFresh (by decide) (by decide)).2 (Or.inl rfl)).2.2.2.2 rfl

/-- C8 counterexample: a pass aborted by a write failure does **not**
drop every record at the resend threshold.  In `tblMixed` the fresh
record is visited first; its (forced) resend is attempted, the write
fails, and the pass stops — leaving the exhausted record, whose resend
count is `maxResends` at the start of the pass, still in the table after
the pass. -/
theorem c8_abortedPass_counterexample :
    maxResends ≤ ifmExhausted.resends ∧
    (2, ifmExhausted) ∈ tblMixed ∧
    (ResendInflight true 100 (fun _ => false) tblMixed).2
      = some Err.writeFailed ∧
    List.lookup 2 (ResendInflight true 100 (fun _ => false) tblMixed).1
      = some ifmExhausted := by
  exact ⟨by decide, by decide, by decide, by decide⟩

/-- C8 (amended): across one `ResendInflight` pass over a well-keyed
table (distinct keys, each record keyed by its own packet id), the resend
count of every surviving record is at least its starting value; **if the
pass completes without a write error**, every record whose resend count
was at least `maxResends` at the start is absent afterwards (a write
failure aborts the pass and later records are left untouched); and the
invariant that every record in the table has resend count at most
`maxResends` is preserved by every pass, aborted or not. -/
theorem c8_resendPass_properties (force : Bool) (now : Int)
    (writes : Nat → Bool) (t : Table)
    (hnd : (t.map Prod.fst).Nodup)
    (hid : ∀ p ∈ t, p.2.packet.packetID = p.1) :
    (∀ k v', List.lookup k (ResendInflight force now writes t).1 = some v' →
      ∃ v, List.lookup k t = some v ∧ v.resends ≤ v'.resends) ∧
    ((ResendInflight force now writes t).2 = none →
      ∀ p ∈ t, maxResends ≤ p.2.resends →
        List.lookup p.1 (ResendInflight force now writes t).1 = none) ∧
    ((∀ p ∈ t, p.2.resends ≤ maxResends) →
      ∀ k v', List.lookup k (ResendInflight force now writes t).1 = some v' →
        v'.resends ≤ maxResends) := by
  rw [ResendInflight_eq_pass]
  refine ⟨?_, ?_, ?_⟩
  · exact resendPass_mono force now writes t t 0 hnd hid
      (fun p hp => lookup_of_mem_nodupKeys hnd hp)
  · exact resendPass_drops force now writes t t 0 hnd hid
  · intro hball
    refine resendPass_bound force now writes t t 0 ?_
    intro k v hv
    exact hball (k, v) (mem_of_lookup_eq_some hv)

/-- Witness for C8 (amended) at a completing pass (all writes succeed)
over the mixed table: the drop clause applies with its hypotheses
discharged. -/
theorem c8_resendPass_properties_witness :
    ((tblMixed.map Prod.fst).Nodup ∧
      (∀ p ∈ tblMixed, p.2.packet.packetID = p.1)) ∧
    ((ResendInflight true 100 (fun _ => true) tblMixed).2 = none →
      ∀ p ∈ tblMixed, maxResends ≤ p.2.resends →
        List.lookup p.1 (ResendInflight true 100 (fun _ => true) tblMixed).1
          = none) := by
  exact ⟨⟨by decide, by decide⟩,
    (c8_resendPass_properties true 100 (fun _ => true) tblMixed
      (by decide) (by decide)).2.1⟩

/-- C9: calling `Stop` any `n ≥ 1` times from the initial lifecycle state
runs the shutdown body exactly once — the final state is the gate used,
`done = 1`, and one copy of the body trace, in which the wait on the
writer-ended signal precedes the wait on the reader-ended signal, which
precedes the store of `done`; `done` starts at 0 and never returns to 0. -/
theorem c9_stop_idempotent (n : Nat) (h : 1 ≤ n) :
    stopN n initStopState = { onceUsed := true, done := 1, trace := stopBody } ∧
    (stopN n initStopState).trace.count StopEvent.setDone = 1 ∧
    (stopN 0 initStopState).done = 0 ∧
    stopBody.indexOf StopEvent.waitWriterEnded
      < stopBody.indexOf StopEvent.waitReaderEnded ∧
    stopBody.indexOf StopEvent.waitReaderEnded
      < stopBody.indexOf StopEvent.setDone := by
  obtain ⟨m, rfl⟩ : ∃ m, n = m + 1 := ⟨n - 1, by omega⟩
  have hst : stopN (m + 1) initStopState
      = { onceUsed := true, done := 1, trace := stopBody } := by
    show stopN m (stop initStopState) = _
    rw [stop_initStopState]
    exact stopN_stopped m
  refine ⟨hst, ?_, rfl, by decide, by decide⟩
  rw [hst]
  decide

/-- Witness for C9 at three sequential `Stop` calls. -/
theorem c9_stop_idempotent_witness :
    (1 ≤ 3 ∧
      stopN 3 initStopState
        = { onceUsed := true, done := 1, trace := stopBody }) := by
  exact ⟨by decide, (c9_stop_idempotent 3 (by decide)).1⟩

end Mqtt
